import Mathlib

/-!
Verification of the state-diffing engine of `api_poll_main_v4.py`
(Portainer container stop notifier).

The Python program works on JSON dictionaries.  We embed them shallowly:

* a Python `dict` is an association list `List (String × α)` with unique
  keys; assignment `d[k] = v` is `dictInsert` (replace in place, else
  append), which is exactly CPython's insertion-order semantics;
* Python `set` values here are only ever tested for membership and
  emptiness, so they are lists with `setAdd` (append if absent);
* change notifications, rendered as f-strings by the program, are
  modelled as the inductive `ChangeEvent` carrying the same payload
  fields (kind, name, id, status / old and new status).
-/

/-- Python `str.lower()` restricted to its ASCII action, written over the
character list so that it evaluates by kernel reduction. -/
def lowerStr (s : String) : String := String.mk (s.data.map Char.toLower)

/-- Python `str.lstrip("/")`: drop every leading `'/'`. -/
def stripSlashes (s : String) : String :=
  String.mk (s.data.dropWhile (fun ch => ch == '/'))

/-- Association-list lookup: `k in d` / `d[k]` of a Python dict. -/
def lookupA {α : Type} : List (String × α) → String → Option α
  | [], _ => none
  | (k, v) :: rest, key => if k = key then some v else lookupA rest key

/-- Python dict assignment `d[k] = v`: replace the value at an existing
key in place, otherwise append the new binding at the end. -/
def dictInsert {α : Type} : List (String × α) → String → α → List (String × α)
  | [], k, v => [(k, v)]
  | (k₁, w) :: rest, k, v =>
      if k₁ = k then (k, v) :: rest else (k₁, w) :: dictInsert rest k v

/-- The keys of an association list, in order. -/
def keysOf {α : Type} (m : List (String × α)) : List String := m.map Prod.fst

/-- Python `set.add`: only membership is ever observed, so append if absent. -/
def setAdd (s : List String) (x : String) : List String :=
  if x ∈ s then s else s ++ [x]

/-- A container observation as produced by `get_all_containers`
(lines 90-97): fields `id`, `name`, `status`, always present. -/
structure NewC where
  id : String
  name : String
  status : String
deriving DecidableEq, Repr

/-- `{**c, "endpoint": ep_name}` — a flattened-current-state value
(line 119-123): the observation together with its endpoint. -/
structure FlatC where
  name : String
  status : String
  endpoint : String
deriving DecidableEq, Repr

/-- A stored record of the previous snapshot (`old_memory[cid]`).
`name` and `status` are accessed by direct indexing in the source and are
required; `endpoint` is read with `.get("endpoint", "unknown")`
(line 169) and may be absent. -/
structure OldData where
  name : String
  status : String
  endpoint : Option String
deriving DecidableEq, Repr

/-- The change notifications of `detect_changes`, one constructor per
message kind, with the payload each f-string renders. -/
inductive ChangeEvent where
  | notRunning (name id status : String)
  | new (name id status : String)
  | restarted (name id status : String)
  | statusChanged (name id oldStatus newStatus : String)
  | removed (name id : String)
deriving DecidableEq, Repr

/-- The container id an event reports. -/
def cidOf : ChangeEvent → String
  | ChangeEvent.notRunning _ cid _ => cid
  | ChangeEvent.new _ cid _ => cid
  | ChangeEvent.restarted _ cid _ => cid
  | ChangeEvent.statusChanged _ cid _ _ => cid
  | ChangeEvent.removed _ cid => cid

def hasId (i : String) (e : ChangeEvent) : Bool := cidOf e == i

def isNotRunning : ChangeEvent → Bool
  | ChangeEvent.notRunning _ _ _ => true
  | _ => false

def isRemoved : ChangeEvent → Bool
  | ChangeEvent.removed _ _ => true
  | _ => false

def isRestartedId (i : String) : ChangeEvent → Bool
  | ChangeEvent.restarted _ cid _ => cid == i
  | _ => false

def isRemovedId (i : String) : ChangeEvent → Bool
  | ChangeEvent.removed _ cid => cid == i
  | _ => false

def isStatusChangedId (i : String) : ChangeEvent → Bool
  | ChangeEvent.statusChanged _ cid _ _ => cid == i
  | _ => false

/-- `changes.setdefault(ep, []).append(e)` (lines 150, 155, 162, 169). -/
def appendEvent : List (String × List ChangeEvent) → String → ChangeEvent →
    List (String × List ChangeEvent)
  | [], ep, e => [(ep, [e])]
  | (k, l) :: rest, ep, e =>
      if k = ep then (k, l ++ [e]) :: rest else (k, l) :: appendEvent rest ep e

/-- The `(c["id"], {**c, "endpoint": ep_name})` pairs of the dict
comprehension on lines 119-123, in grouped-then-sequence order. -/
def flatPairs : List (String × List NewC) → List (String × FlatC)
  | [] => []
  | (ep, cs) :: rest =>
      cs.map (fun c => (c.id, FlatC.mk c.name c.status ep)) ++ flatPairs rest

/-- `new_flat` (lines 119-123): the dict built from `flatPairs`;
duplicate ids resolve last-write-wins at first position, as in Python. -/
def buildFlat (cur : List (String × List NewC)) : List (String × FlatC) :=
  (flatPairs cur).foldl (fun m q => dictInsert m q.1 q.2) []

/-- One step of building `old_name_to_ids` (lines 126-128):
`old_name_to_ids.setdefault(data["name"], set()).add(cid)`. -/
def addNameId : List (String × List String) → String → String →
    List (String × List String)
  | [], nm, cid => [(nm, [cid])]
  | (k, s) :: rest, nm, cid =>
      if k = nm then (k, setAdd s cid) :: rest else (k, s) :: addNameId rest nm cid

/-- `old_name_to_ids` (lines 126-128). -/
def buildNameToIds (old : List (String × OldData)) : List (String × List String) :=
  old.foldl (fun m p => addNameId m p.2.name p.1) []

/-- `old_name_to_ids.get(name, set())` (line 148). -/
def getOldIds (m : List (String × List String)) (nm : String) : List String :=
  (lookupA m nm).getD []

/-- The `non_running` list comprehension (lines 133-137): one `NotRunning`
per container whose lowercased status is not `"running"`. -/
def nonRunningOf (cs : List NewC) : List ChangeEvent :=
  (cs.filter (fun c => lowerStr c.status != "running")).map
    (fun c => ChangeEvent.notRunning c.name c.id c.status)

/-- One endpoint of the first-run branch (lines 132-139):
`changes[ep_name] = non_running` only when that list is non-empty. -/
def bootStep (changes : List (String × List ChangeEvent)) (p : String × List NewC) :
    List (String × List ChangeEvent) :=
  if nonRunningOf p.2 = [] then changes else dictInsert changes p.1 (nonRunningOf p.2)

/-- First-run branch of `detect_changes` (lines 131-140). -/
def bootstrapChanges (cur : List (String × List NewC)) :
    List (String × List ChangeEvent) :=
  cur.foldl bootStep []

/-- Body of the first steady-state loop (lines 145-164), acting on the
pair (changes so far, `removed_ids_to_skip` so far). -/
def step1 (old : List (String × OldData)) (nti : List (String × List String))
    (acc : List (String × List ChangeEvent) × List String) (q : String × FlatC) :
    List (String × List ChangeEvent) × List String :=
  match lookupA old q.1 with
  | none =>
      if getOldIds nti q.2.name ≠ [] then
        (appendEvent acc.1 q.2.endpoint (ChangeEvent.restarted q.2.name q.1 q.2.status),
         (getOldIds nti q.2.name).foldl setAdd acc.2)
      else
        (appendEvent acc.1 q.2.endpoint (ChangeEvent.new q.2.name q.1 q.2.status), acc.2)
  | some d =>
      if d.status = q.2.status then acc
      else
        (appendEvent acc.1 q.2.endpoint
          (ChangeEvent.statusChanged q.2.name q.1 d.status q.2.status), acc.2)

/-- Body of the removal loop (lines 167-171). -/
def step2 (newFlat : List (String × FlatC)) (skip : List String)
    (changes : List (String × List ChangeEvent)) (q : String × OldData) :
    List (String × List ChangeEvent) :=
  if lookupA newFlat q.1 = none ∧ q.1 ∉ skip then
    appendEvent changes (q.2.endpoint.getD "unknown")
      (ChangeEvent.removed q.2.name q.1)
  else changes

/-- `detect_changes(old_memory, new_containers)` (lines 114-173). -/
def detectChanges (old : List (String × OldData)) (cur : List (String × List NewC)) :
    List (String × List ChangeEvent) :=
  let newFlat := buildFlat cur
  let nti := buildNameToIds old
  if old = [] then bootstrapChanges cur
  else
    let pass1 := newFlat.foldl (step1 old nti) ([], [])
    old.foldl (step2 newFlat pass1.2) pass1.1

/-- `build_memory(containers_by_endpoint)` (lines 101-111). -/
def buildMemory (cur : List (String × List NewC)) : List (String × OldData) :=
  cur.foldl
    (fun m p =>
      p.2.foldl (fun m c => dictInsert m c.id (OldData.mk c.name c.status (some p.1))) m)
    []

/-- A raw container record of the Portainer API; every field the source
reads may be absent. -/
structure RawC where
  rId : Option String
  rNames : Option (List String)
  rState : Option String
deriving DecidableEq, Repr

/-- One element of the comprehension on lines 90-97:
`{"id": c.get("Id", "")[:12], "name": c.get("Names", [""])[0].lstrip("/"),
"status": c.get("State", "unknown")}`.  `none` models the `IndexError`
raised by `[0]` when `Names` is present but empty. -/
def buildObs (c : RawC) : Option NewC :=
  match (c.rNames.getD [""]) with
  | [] => none
  | n :: _ =>
      some (NewC.mk ((c.rId.getD "").take 12) (stripSlashes n)
        (c.rState.getD "unknown"))

/-- The list comprehension of lines 90-97 over one endpoint. -/
def obsList : List RawC → Option (List NewC)
  | [] => some []
  | c :: rest =>
      match buildObs c, obsList rest with
      | some o, some os => some (o :: os)
      | _, _ => none

/-- Observation building over all endpoints, as in `get_all_containers`. -/
def groupedObs : List (String × List RawC) → Option (List (String × List NewC))
  | [] => some []
  | (ep, cs) :: rest =>
      match obsList cs, groupedObs rest with
      | some os, some g => some ((ep, os) :: g)
      | _, _ => none

/-- Fill a raw record's absent fields with the defaults the source
supplies via `.get`. -/
def fillRaw (c : RawC) : RawC :=
  RawC.mk (some (c.rId.getD "")) (some (c.rNames.getD [""]))
    (some (c.rState.getD "unknown"))

/-- One cycle's fetch-then-reconcile composition: build observations from
raw API records, then run `detect_changes` on them. -/
def reconcileRaw (prev : List (String × OldData)) (raw : List (String × List RawC)) :
    Option (List (String × List ChangeEvent)) :=
  (groupedObs raw).map (fun obs => detectChanges prev obs)

/-- The final value of `removed_ids_to_skip`: second component of the
first loop's fold. -/
def skipStep (old : List (String × OldData)) (nti : List (String × List String))
    (s : List String) (q : String × FlatC) : List String :=
  match lookupA old q.1 with
  | none =>
      if getOldIds nti q.2.name ≠ [] then (getOldIds nti q.2.name).foldl setAdd s
      else s
  | some _ => s

def skipSet (old : List (String × OldData)) (cur : List (String × List NewC)) :
    List String :=
  (buildFlat cur).foldl (skipStep old (buildNameToIds old)) []

/-- The event the first loop emits for one flattened entry, if any. -/
def step1Event (old : List (String × OldData)) (nti : List (String × List String))
    (q : String × FlatC) : Option ChangeEvent :=
  match lookupA old q.1 with
  | none =>
      if getOldIds nti q.2.name ≠ [] then
        some (ChangeEvent.restarted q.2.name q.1 q.2.status)
      else some (ChangeEvent.new q.2.name q.1 q.2.status)
  | some d =>
      if d.status = q.2.status then none
      else some (ChangeEvent.statusChanged q.2.name q.1 d.status q.2.status)

/-- The event the removal loop emits for one previous entry, if any. -/
def step2Event (newFlat : List (String × FlatC)) (skip : List String)
    (q : String × OldData) : Option ChangeEvent :=
  if lookupA newFlat q.1 = none ∧ q.1 ∉ skip then
    some (ChangeEvent.removed q.2.name q.1)
  else none

/-- The changes-component of the first loop, in isolation. -/
def pass1Step (old : List (String × OldData)) (nti : List (String × List String))
    (m : List (String × List ChangeEvent)) (q : String × FlatC) :
    List (String × List ChangeEvent) :=
  match step1Event old nti q with
  | some e => appendEvent m q.2.endpoint e
  | none => m

/-- The event list the result holds for an endpoint (empty if absent). -/
def eventsAt (m : List (String × List ChangeEvent)) (ep : String) :
    List ChangeEvent :=
  (lookupA m ep).getD []

/-- How many events in the whole result satisfy `p`. -/
def countIn (m : List (String × List ChangeEvent)) (p : ChangeEvent → Bool) : Nat :=
  (m.map (fun q => (q.2.filter p).length)).sum

/-- Contribution of an optional event to a count. -/
def countOpt (p : ChangeEvent → Bool) : Option ChangeEvent → Nat
  | some e => if p e then 1 else 0
  | none => 0

/-- The endpoint a removal is filed under: `old_data.get("endpoint", "unknown")`. -/
def ep2Of (q : String × OldData) : String := q.2.endpoint.getD "unknown"

/-- Map a function over the values of an association list. -/
def mapValues {α β : Type} (m : List (String × α)) (f : α → β) : List (String × β) :=
  m.map (fun q => (q.1, f q.2))

/-- The snapshot record `build_memory` stores for a flattened observation. -/
def toOld (f : FlatC) : OldData := OldData.mk f.name f.status (some f.endpoint)

/-! ### Association-list lemmas -/

@[simp] theorem keysOf_nil {α : Type} : keysOf ([] : List (String × α)) = [] := rfl

@[simp] theorem keysOf_cons {α : Type} (p : String × α) (rest : List (String × α)) :
    keysOf (p :: rest) = p.1 :: keysOf rest := rfl

theorem keysOf_append {α : Type} (l r : List (String × α)) :
    keysOf (l ++ r) = keysOf l ++ keysOf r := List.map_append _ _ _

theorem mem_keysOf_of_mem {α : Type} {m : List (String × α)} {p : String × α}
    (h : p ∈ m) : p.1 ∈ keysOf m := List.mem_map.mpr ⟨p, h, rfl⟩

theorem lookupA_mem {α : Type} {m : List (String × α)} {k : String} {v : α}
    (h : lookupA m k = some v) : (k, v) ∈ m := by
  induction m with
  | nil => simp [lookupA] at h
  | cons p rest ih =>
    obtain ⟨k₁, w⟩ := p
    by_cases hk : k₁ = k
    · rw [lookupA, if_pos hk] at h
      obtain rfl : w = v := Option.some.inj h
      subst hk
      exact List.mem_cons_self _ _
    · rw [lookupA, if_neg hk] at h
      exact List.mem_cons_of_mem _ (ih h)

theorem lookupA_eq_none {α : Type} {m : List (String × α)} {k : String} :
    lookupA m k = none ↔ k ∉ keysOf m := by
  induction m with
  | nil => simp [lookupA]
  | cons p rest ih =>
    obtain ⟨k₁, w⟩ := p
    by_cases hk : k₁ = k
    · subst hk
      simp [lookupA]
    · rw [lookupA, if_neg hk, keysOf_cons]
      simp only [List.mem_cons, not_or, ih]
      constructor
      · intro h
        exact ⟨fun he => hk he.symm, h⟩
      · intro h
        exact h.2

theorem mem_lookupA {α : Type} {m : List (String × α)}
    (hn : (keysOf m).Nodup) {k : String} {v : α} (h : (k, v) ∈ m) :
    lookupA m k = some v := by
  induction m with
  | nil => simp at h
  | cons p rest ih =>
    obtain ⟨k₁, w⟩ := p
    rw [keysOf_cons, List.nodup_cons] at hn
    rcases List.mem_cons.mp h with h₁ | h₁
    · rw [Prod.mk.injEq] at h₁
      rw [lookupA, if_pos h₁.1.symm]
      exact congrArg some h₁.2.symm
    · have hk : k₁ ≠ k := by
        intro he
        subst he
        exact hn.1 (List.mem_map.mpr ⟨(k₁, v), h₁, rfl⟩)
      rw [lookupA, if_neg hk]
      exact ih hn.2 h₁

theorem lookupA_isSome_of_mem {α : Type} {m : List (String × α)} {k : String}
    (h : k ∈ keysOf m) : lookupA m k ≠ none := by
  intro hn
  exact lookupA_eq_none.mp hn h

theorem dictInsert_of_not_mem {α : Type} {m : List (String × α)} {k : String}
    (hk : k ∉ keysOf m) (v : α) : dictInsert m k v = m ++ [(k, v)] := by
  induction m with
  | nil => rfl
  | cons p rest ih =>
    obtain ⟨k₁, w⟩ := p
    rw [keysOf_cons, List.mem_cons, not_or] at hk
    rw [dictInsert, if_neg (fun he => hk.1 he.symm), List.cons_append]
    rw [ih hk.2]

theorem keysOf_dictInsert {α : Type} (m : List (String × α)) (k : String) (v : α) :
    keysOf (dictInsert m k v) = if k ∈ keysOf m then keysOf m else keysOf m ++ [k] := by
  induction m with
  | nil => simp [dictInsert]
  | cons p rest ih =>
    obtain ⟨k₁, w⟩ := p
    by_cases hk : k₁ = k
    · subst hk
      simp [dictInsert]
    · rw [dictInsert, if_neg hk, keysOf_cons, keysOf_cons, ih]
      by_cases hm : k ∈ keysOf rest
      · rw [if_pos hm, if_pos (by simp [hm])]
      · rw [if_neg hm, if_neg (by
          simp only [List.mem_cons, not_or]
          exact ⟨fun he => hk he.symm, hm⟩)]
        simp

theorem nodup_keys_dictInsert {α : Type} {m : List (String × α)}
    (hn : (keysOf m).Nodup) (k : String) (v : α) :
    (keysOf (dictInsert m k v)).Nodup := by
  rw [keysOf_dictInsert]
  by_cases hm : k ∈ keysOf m
  · rw [if_pos hm]; exact hn
  · rw [if_neg hm]
    exact List.Nodup.append hn (List.nodup_singleton k)
      (by simpa [List.disjoint_singleton] using hm)

theorem nodup_keys_foldl_dictInsert {α : Type} (l : List (String × α)) :
    ∀ m : List (String × α), (keysOf m).Nodup →
      (keysOf (l.foldl (fun m q => dictInsert m q.1 q.2) m)).Nodup := by
  induction l with
  | nil => intro m hm; simpa using hm
  | cons q rest ih =>
    intro m hm
    exact ih _ (nodup_keys_dictInsert hm q.1 q.2)

theorem nodup_keys_buildFlat (cur : List (String × List NewC)) :
    (keysOf (buildFlat cur)).Nodup :=
  nodup_keys_foldl_dictInsert _ [] (by simp)

/-! ### Set and event-accumulator lemmas -/

theorem mem_setAdd {s : List String} {x y : String} :
    x ∈ setAdd s y ↔ x ∈ s ∨ x = y := by
  unfold setAdd
  by_cases h : y ∈ s
  · rw [if_pos h]
    exact ⟨Or.inl, fun hx => hx.elim id (fun he => he ▸ h)⟩
  · rw [if_neg h]
    simp

theorem mem_foldl_setAdd {l : List String} :
    ∀ {s x}, x ∈ l.foldl setAdd s ↔ x ∈ s ∨ x ∈ l := by
  induction l with
  | nil => simp
  | cons y rest ih =>
    intro s x
    rw [List.foldl_cons, ih, mem_setAdd]
    simp [or_assoc, List.mem_cons]

theorem lookupA_appendEvent_self (m : List (String × List ChangeEvent))
    (ep : String) (e : ChangeEvent) :
    lookupA (appendEvent m ep e) ep = some ((lookupA m ep).getD [] ++ [e]) := by
  induction m with
  | nil => simp [appendEvent, lookupA]
  | cons p rest ih =>
    obtain ⟨k, l⟩ := p
    by_cases hk : k = ep
    · subst hk
      simp [appendEvent, lookupA]
    · rw [appendEvent, if_neg hk, lookupA, if_neg hk, lookupA, if_neg hk]
      exact ih

theorem lookupA_appendEvent_ne (m : List (String × List ChangeEvent))
    {ep k : String} (hk : k ≠ ep) (e : ChangeEvent) :
    lookupA (appendEvent m ep e) k = lookupA m k := by
  induction m with
  | nil => simp [appendEvent, lookupA, Ne.symm hk]
  | cons p rest ih =>
    obtain ⟨k₁, l⟩ := p
    by_cases h₁ : k₁ = ep
    · subst h₁
      rw [appendEvent, if_pos rfl, lookupA, lookupA, if_neg (fun h => hk h.symm),
        if_neg (fun h => hk h.symm)]
    · rw [appendEvent, if_neg h₁, lookupA, lookupA]
      by_cases h₂ : k₁ = k
      · rw [if_pos h₂, if_pos h₂]
      · rw [if_neg h₂, if_neg h₂]
        exact ih

theorem eventsAt_appendEvent_self (m : List (String × List ChangeEvent))
    (ep : String) (e : ChangeEvent) :
    eventsAt (appendEvent m ep e) ep = eventsAt m ep ++ [e] := by
  rw [eventsAt, eventsAt, lookupA_appendEvent_self]
  rfl

theorem eventsAt_appendEvent_ne (m : List (String × List ChangeEvent))
    {ep k : String} (hk : k ≠ ep) (e : ChangeEvent) :
    eventsAt (appendEvent m ep e) k = eventsAt m k := by
  rw [eventsAt, eventsAt, lookupA_appendEvent_ne m hk]

@[simp] theorem countIn_nil (p : ChangeEvent → Bool) : countIn [] p = 0 := rfl

theorem countIn_cons (q : String × List ChangeEvent)
    (rest : List (String × List ChangeEvent)) (p : ChangeEvent → Bool) :
    countIn (q :: rest) p = (q.2.filter p).length + countIn rest p := by
  simp [countIn]

theorem countIn_appendEvent (m : List (String × List ChangeEvent))
    (ep : String) (e : ChangeEvent) (p : ChangeEvent → Bool) :
    countIn (appendEvent m ep e) p = countIn m p + (if p e then 1 else 0) := by
  induction m with
  | nil =>
    rw [appendEvent, countIn_cons]
    cases hp : p e <;> simp [countIn, List.filter_cons, hp]
  | cons q rest ih =>
    obtain ⟨k, l⟩ := q
    by_cases hk : k = ep
    · subst hk
      rw [appendEvent, if_pos rfl, countIn_cons, countIn_cons]
      simp only [List.filter_append, List.length_append]
      cases hp : p e
      · simp [List.filter, hp]
      · simp [List.filter, hp]
        omega
    · rw [appendEvent, if_neg hk, countIn_cons, countIn_cons, ih]
      omega

/-! ### Decomposing the two loops of `detect_changes` -/

theorem step1_split (old : List (String × OldData)) (nti : List (String × List String))
    (acc : List (String × List ChangeEvent) × List String) (q : String × FlatC) :
    step1 old nti acc q = (pass1Step old nti acc.1 q, skipStep old nti acc.2 q) := by
  unfold step1 pass1Step step1Event skipStep
  cases h : lookupA old q.1
  · by_cases hg : getOldIds nti q.2.name ≠ [] <;> simp [hg]
  · next d =>
    by_cases hs : d.status = q.2.status <;> simp [hs]

theorem foldl_step1_split (old : List (String × OldData))
    (nti : List (String × List String)) (l : List (String × FlatC)) :
    ∀ c s, l.foldl (step1 old nti) (c, s) =
      (l.foldl (pass1Step old nti) c, l.foldl (skipStep old nti) s) := by
  induction l with
  | nil => intro c s; rfl
  | cons q rest ih =>
    intro c s
    rw [List.foldl_cons, step1_split, ih, List.foldl_cons, List.foldl_cons]

theorem step2_split (nf : List (String × FlatC)) (skip : List String)
    (m : List (String × List ChangeEvent)) (q : String × OldData) :
    step2 nf skip m q =
      (match step2Event nf skip q with
       | some e => appendEvent m (ep2Of q) e
       | none => m) := by
  unfold step2 step2Event ep2Of
  by_cases h : lookupA nf q.1 = none ∧ q.1 ∉ skip <;> simp [h]

theorem eventsAt_foldl_pass1 (old : List (String × OldData))
    (nti : List (String × List String)) (l : List (String × FlatC)) (ep : String) :
    ∀ c, eventsAt (l.foldl (pass1Step old nti) c) ep =
      eventsAt c ep ++
        l.filterMap (fun q => if q.2.endpoint = ep then step1Event old nti q else none) := by
  induction l with
  | nil => intro c; simp
  | cons q rest ih =>
    intro c
    rw [List.foldl_cons]
    cases he : step1Event old nti q
    · have hpass : pass1Step old nti c q = c := by rw [pass1Step, he]
      rw [hpass, ih]
      simp only [List.filterMap_cons, he]
      by_cases hq : q.2.endpoint = ep <;> simp [hq]
    · next e =>
      have hpass : pass1Step old nti c q = appendEvent c q.2.endpoint e := by
        rw [pass1Step, he]
      rw [hpass, ih]
      simp only [List.filterMap_cons, he]
      by_cases hq : q.2.endpoint = ep
      · subst hq
        rw [eventsAt_appendEvent_self]
        simp
      · rw [eventsAt_appendEvent_ne c (fun h => hq h.symm)]
        simp [hq]

theorem countIn_foldl_pass1 (old : List (String × OldData))
    (nti : List (String × List String)) (l : List (String × FlatC))
    (p : ChangeEvent → Bool) :
    ∀ c, countIn (l.foldl (pass1Step old nti) c) p =
      countIn c p + (l.map (fun q => countOpt p (step1Event old nti q))).sum := by
  induction l with
  | nil => intro c; simp
  | cons q rest ih =>
    intro c
    rw [List.foldl_cons, List.map_cons, List.sum_cons]
    cases he : step1Event old nti q
    · have hpass : pass1Step old nti c q = c := by rw [pass1Step, he]
      rw [hpass, ih, countOpt]
      omega
    · next e =>
      have hpass : pass1Step old nti c q = appendEvent c q.2.endpoint e := by
        rw [pass1Step, he]
      rw [hpass, ih, countIn_appendEvent, countOpt]
      omega

theorem eventsAt_foldl_pass2 (nf : List (String × FlatC)) (skip : List String)
    (l : List (String × OldData)) (ep : String) :
    ∀ c, eventsAt (l.foldl (step2 nf skip) c) ep =
      eventsAt c ep ++
        l.filterMap (fun q => if ep2Of q = ep then step2Event nf skip q else none) := by
  induction l with
  | nil => intro c; simp
  | cons q rest ih =>
    intro c
    rw [List.foldl_cons]
    cases he : step2Event nf skip q
    · have hstep : step2 nf skip c q = c := by rw [step2_split, he]
      rw [hstep, ih]
      simp only [List.filterMap_cons, he]
      by_cases hq : ep2Of q = ep <;> simp [hq]
    · next e =>
      have hstep : step2 nf skip c q = appendEvent c (ep2Of q) e := by
        rw [step2_split, he]
      rw [hstep, ih]
      simp only [List.filterMap_cons, he]
      by_cases hq : ep2Of q = ep
      · subst hq
        rw [eventsAt_appendEvent_self]
        simp
      · rw [eventsAt_appendEvent_ne c (fun h => hq h.symm)]
        simp [hq]

theorem countIn_foldl_pass2 (nf : List (String × FlatC)) (skip : List String)
    (l : List (String × OldData)) (p : ChangeEvent → Bool) :
    ∀ c, countIn (l.foldl (step2 nf skip) c) p =
      countIn c p + (l.map (fun q => countOpt p (step2Event nf skip q))).sum := by
  induction l with
  | nil => intro c; simp
  | cons q rest ih =>
    intro c
    rw [List.foldl_cons, List.map_cons, List.sum_cons]
    cases he : step2Event nf skip q
    · have hstep : step2 nf skip c q = c := by rw [step2_split, he]
      rw [hstep, ih, countOpt]
      omega
    · next e =>
      have hstep : step2 nf skip c q = appendEvent c (ep2Of q) e := by
        rw [step2_split, he]
      rw [hstep, ih, countIn_appendEvent, countOpt]
      omega

theorem detectChanges_bootstrap (cur : List (String × List NewC)) :
    detectChanges [] cur = bootstrapChanges cur := by
  simp [detectChanges]

theorem detectChanges_steady {old : List (String × OldData)}
    (h : old ≠ []) (cur : List (String × List NewC)) :
    detectChanges old cur =
      old.foldl (step2 (buildFlat cur) (skipSet old cur))
        ((buildFlat cur).foldl (pass1Step old (buildNameToIds old)) []) := by
  simp only [detectChanges, if_neg h]
  rw [foldl_step1_split]
  rfl

/-! ### Master formulas for `detect_changes` in steady state -/

@[simp] theorem eventsAt_nil (ep : String) : eventsAt [] ep = [] := rfl

theorem countIn_detectChanges {old : List (String × OldData)} (h : old ≠ [])
    (cur : List (String × List NewC)) (p : ChangeEvent → Bool) :
    countIn (detectChanges old cur) p =
      ((buildFlat cur).map
        (fun q => countOpt p (step1Event old (buildNameToIds old) q))).sum +
      (old.map
        (fun q => countOpt p (step2Event (buildFlat cur) (skipSet old cur) q))).sum := by
  rw [detectChanges_steady h, countIn_foldl_pass2, countIn_foldl_pass1, countIn_nil,
    Nat.zero_add]

theorem eventsAt_detectChanges {old : List (String × OldData)} (h : old ≠ [])
    (cur : List (String × List NewC)) (ep : String) :
    eventsAt (detectChanges old cur) ep =
      (buildFlat cur).filterMap
        (fun q => if q.2.endpoint = ep then step1Event old (buildNameToIds old) q else none) ++
      old.filterMap
        (fun q => if ep2Of q = ep then
          step2Event (buildFlat cur) (skipSet old cur) q else none) := by
  rw [detectChanges_steady h, eventsAt_foldl_pass2, eventsAt_foldl_pass1, eventsAt_nil,
    List.nil_append]

/-! ### Shape of the emitted events -/

theorem step1Event_cid {old : List (String × OldData)} {nti : List (String × List String)}
    {q : String × FlatC} {e : ChangeEvent} (h : step1Event old nti q = some e) :
    cidOf e = q.1 := by
  unfold step1Event at h
  split at h
  · split at h
    · obtain rfl := Option.some.inj h
      rfl
    · obtain rfl := Option.some.inj h
      rfl
  · split at h
    · exact absurd h (by simp)
    · obtain rfl := Option.some.inj h
      rfl

theorem step1Event_not_removed {old : List (String × OldData)}
    {nti : List (String × List String)} {q : String × FlatC} {e : ChangeEvent}
    (h : step1Event old nti q = some e) : isRemoved e = false := by
  unfold step1Event at h
  split at h
  · split at h
    · obtain rfl := Option.some.inj h
      rfl
    · obtain rfl := Option.some.inj h
      rfl
  · split at h
    · exact absurd h (by simp)
    · obtain rfl := Option.some.inj h
      rfl

theorem step2Event_some {nf : List (String × FlatC)} {skip : List String}
    {q : String × OldData} {e : ChangeEvent} (h : step2Event nf skip q = some e) :
    e = ChangeEvent.removed q.2.name q.1 ∧ lookupA nf q.1 = none ∧ q.1 ∉ skip := by
  unfold step2Event at h
  by_cases hc : lookupA nf q.1 = none ∧ q.1 ∉ skip
  · rw [if_pos hc] at h
    exact ⟨(Option.some.inj h).symm, hc⟩
  · rw [if_neg hc] at h
    exact absurd h (by simp)

theorem step2Event_is_removed {nf : List (String × FlatC)} {skip : List String}
    {q : String × OldData} {e : ChangeEvent} (h : step2Event nf skip q = some e) :
    isRemoved e = true := by
  obtain ⟨rfl, -⟩ := step2Event_some h
  rfl

/-! ### Summation helpers -/

theorem sum_map_zero {β : Type} {l : List β} {f : β → Nat}
    (h : ∀ q ∈ l, f q = 0) : (l.map f).sum = 0 := by
  induction l with
  | nil => rfl
  | cons q rest ih =>
    rw [List.map_cons, List.sum_cons, h q (List.mem_cons_self _ _),
      ih (fun x hx => h x (List.mem_cons_of_mem _ hx)), Nat.add_zero]

theorem sum_map_single_key {β : Type} {l : List (String × β)} {f : String × β → Nat}
    {k : String} {v : β} (hn : (keysOf l).Nodup) (hm : (k, v) ∈ l)
    (hz : ∀ q ∈ l, q.1 ≠ k → f q = 0) : (l.map f).sum = f (k, v) := by
  induction l with
  | nil => simp at hm
  | cons p rest ih =>
    rw [keysOf_cons, List.nodup_cons] at hn
    rw [List.map_cons, List.sum_cons]
    rcases List.mem_cons.mp hm with h₁ | h₁
    · obtain rfl := h₁.symm
      have hz' : ∀ q ∈ rest, f q = 0 := by
        intro q hq
        refine hz q (List.mem_cons_of_mem _ hq) ?_
        intro he
        have hk : q.1 ∈ keysOf rest := mem_keysOf_of_mem hq
        rw [he] at hk
        exact hn.1 hk
      rw [sum_map_zero hz', Nat.add_zero]
    · have hp : p.1 ≠ k := by
        intro he
        have hk : k ∈ keysOf rest := mem_keysOf_of_mem h₁
        rw [← he] at hk
        exact hn.1 hk
      rw [hz p (List.mem_cons_self _ _) hp, Nat.zero_add]
      exact ih hn.2 h₁ (fun q hq hqk => hz q (List.mem_cons_of_mem _ hq) hqk)

/-! ### Characterising `old_name_to_ids` and `removed_ids_to_skip` -/

theorem mem_getOldIds_addNameId {m : List (String × List String)}
    {n n₁ c₁ cid : String} :
    cid ∈ getOldIds (addNameId m n₁ c₁) n ↔
      cid ∈ getOldIds m n ∨ (n₁ = n ∧ c₁ = cid) := by
  induction m with
  | nil =>
    by_cases hn : n₁ = n
    · subst hn
      simp [addNameId, getOldIds, lookupA, eq_comm]
    · simp [addNameId, getOldIds, lookupA, hn]
  | cons p rest ih =>
    obtain ⟨k, s⟩ := p
    by_cases hk : k = n₁
    · subst hk
      by_cases hn : k = n
      · subst hn
        simp [addNameId, getOldIds, lookupA, mem_setAdd, eq_comm]
      · simp [addNameId, getOldIds, lookupA, hn]
    · rw [addNameId, if_neg hk]
      by_cases hn : k = n
      · subst hn
        have hne : n₁ ≠ k := fun h => hk h.symm
        simp [getOldIds, lookupA, hne]
      · simp only [getOldIds, lookupA, if_neg hn]
        exact ih

theorem mem_getOldIds_buildNameToIds {old : List (String × OldData)}
    {n cid : String} :
    cid ∈ getOldIds (buildNameToIds old) n ↔
      ∃ d, (cid, d) ∈ old ∧ d.name = n := by
  have main : ∀ (l : List (String × OldData)) (m : List (String × List String)),
      cid ∈ getOldIds (l.foldl (fun m p => addNameId m p.2.name p.1) m) n ↔
        cid ∈ getOldIds m n ∨ ∃ d, (cid, d) ∈ l ∧ d.name = n := by
    intro l
    induction l with
    | nil => simp
    | cons p rest ih =>
      intro m
      rw [List.foldl_cons, ih, mem_getOldIds_addNameId]
      constructor
      · rintro ((h | ⟨hn, hc⟩) | ⟨d, hd, hn⟩)
        · exact Or.inl h
        · exact Or.inr ⟨p.2, by
            rw [← hc]
            exact List.mem_cons_self _ _, hn⟩
        · exact Or.inr ⟨d, List.mem_cons_of_mem _ hd, hn⟩
      · rintro (h | ⟨d, hd, hn⟩)
        · exact Or.inl (Or.inl h)
        · rcases List.mem_cons.mp hd with h₁ | h₁
          · have h₂ : d = p.2 := congrArg Prod.snd h₁
            have h₃ : cid = p.1 := congrArg Prod.fst h₁
            refine Or.inl (Or.inr ⟨?_, h₃.symm⟩)
            rw [← h₂]
            exact hn
          · exact Or.inr ⟨d, h₁, hn⟩
  rw [buildNameToIds, main old []]
  simp [getOldIds, lookupA]

theorem getOldIds_ne_nil_of_named {old : List (String × OldData)}
    {n a : String} {da : OldData} (ha : (a, da) ∈ old) (hn : da.name = n) :
    getOldIds (buildNameToIds old) n ≠ [] :=
  List.ne_nil_of_mem (mem_getOldIds_buildNameToIds.mpr ⟨da, ha, hn⟩)

theorem mem_skipStep_of_mem {old : List (String × OldData)}
    {nti : List (String × List String)} {s : List String} {x : String}
    (h : x ∈ s) (q : String × FlatC) : x ∈ skipStep old nti s q := by
  unfold skipStep
  cases lookupA old q.1
  · by_cases hg : getOldIds nti q.2.name ≠ []
    · rw [if_pos hg]
      exact mem_foldl_setAdd.mpr (Or.inl h)
    · rw [if_neg hg]
      exact h
  · exact h

theorem mem_foldl_skipStep_of_mem {old : List (String × OldData)}
    {nti : List (String × List String)} (l : List (String × FlatC)) :
    ∀ {s x}, x ∈ s → x ∈ l.foldl (skipStep old nti) s := by
  induction l with
  | nil => intro s x h; exact h
  | cons q rest ih =>
    intro s x h
    rw [List.foldl_cons]
    exact ih (mem_skipStep_of_mem h q)

theorem mem_foldl_skipStep {old : List (String × OldData)}
    {nti : List (String × List String)} {l : List (String × FlatC)}
    {i oid : String} {c : FlatC} (hmem : (i, c) ∈ l)
    (hold : lookupA old i = none) (hoid : oid ∈ getOldIds nti c.name) :
    ∀ s, oid ∈ l.foldl (skipStep old nti) s := by
  induction l with
  | nil => simp at hmem
  | cons q rest ih =>
    intro s
    rw [List.foldl_cons]
    rcases List.mem_cons.mp hmem with h₁ | h₁
    · refine mem_foldl_skipStep_of_mem rest ?_
      rw [← h₁, skipStep]
      simp only [hold]
      rw [if_pos (List.ne_nil_of_mem hoid)]
      exact mem_foldl_setAdd.mpr (Or.inr hoid)
    · exact ih h₁ _

theorem mem_skipSet {old : List (String × OldData)} {cur : List (String × List NewC)}
    {i oid : String} {c : FlatC} (hmem : (i, c) ∈ buildFlat cur)
    (hold : lookupA old i = none)
    (hoid : oid ∈ getOldIds (buildNameToIds old) c.name) :
    oid ∈ skipSet old cur :=
  mem_foldl_skipStep hmem hold hoid []

/-! ### Structure of `new_flat` and `build_memory` -/

theorem foldl_dictInsert_append {α : Type} (l : List (String × α)) :
    ∀ m, (∀ k ∈ keysOf l, k ∉ keysOf m) → (keysOf l).Nodup →
      l.foldl (fun m q => dictInsert m q.1 q.2) m = m ++ l := by
  induction l with
  | nil => intro m _ _; simp
  | cons q rest ih =>
    intro m hd hn
    rw [keysOf_cons, List.nodup_cons] at hn
    rw [List.foldl_cons,
      dictInsert_of_not_mem (hd q.1 (by rw [keysOf_cons]; exact List.mem_cons_self _ _)) q.2]
    have step : m ++ [(q.1, q.2)] = m ++ [q] := rfl
    rw [step, ih (m ++ [q]) ?_ hn.2, List.append_assoc, List.singleton_append]
    intro k hk
    rw [keysOf_append, List.mem_append]
    rintro (h | h)
    · exact hd k (by rw [keysOf_cons]; exact List.mem_cons_of_mem _ hk) h
    · have hk1 : k = q.1 := by simpa [keysOf] using h
      exact hn.1 (hk1 ▸ hk)

theorem buildFlat_eq_flatPairs {cur : List (String × List NewC)}
    (h : (keysOf (flatPairs cur)).Nodup) : buildFlat cur = flatPairs cur := by
  rw [buildFlat, foldl_dictInsert_append _ [] (by simp) h, List.nil_append]

theorem dictInsert_ne_nil {α : Type} (m : List (String × α)) (k : String) (v : α) :
    dictInsert m k v ≠ [] := by
  cases m with
  | nil => simp [dictInsert]
  | cons p rest =>
    obtain ⟨k₁, w⟩ := p
    rw [dictInsert]
    split <;> simp

theorem foldl_dictInsert_ne_nil {α : Type} (l : List (String × α)) :
    ∀ m, m ≠ [] → l.foldl (fun m q => dictInsert m q.1 q.2) m ≠ [] := by
  induction l with
  | nil => intro m hm; exact hm
  | cons q rest ih =>
    intro m _
    rw [List.foldl_cons]
    exact ih _ (dictInsert_ne_nil m q.1 q.2)

theorem flatPairs_of_buildFlat_nil {cur : List (String × List NewC)}
    (h : buildFlat cur = []) : flatPairs cur = [] := by
  rw [buildFlat] at h
  cases hf : flatPairs cur with
  | nil => rfl
  | cons q rest =>
    rw [hf, List.foldl_cons] at h
    exact absurd h (foldl_dictInsert_ne_nil rest _ (dictInsert_ne_nil [] q.1 q.2))

theorem flatPairs_nil_elim {cur : List (String × List NewC)}
    (h : flatPairs cur = []) : ∀ p ∈ cur, p.2 = [] := by
  induction cur with
  | nil => intro p hp; simp at hp
  | cons q rest ih =>
    obtain ⟨ep, cs⟩ := q
    rw [flatPairs] at h
    rcases List.append_eq_nil.mp h with ⟨h₁, h₂⟩
    intro p hp
    rcases List.mem_cons.mp hp with h₃ | h₃
    · rw [h₃]
      exact List.map_eq_nil_iff.mp h₁
    · exact ih h₂ p h₃

theorem keysOf_mapValues {α β : Type} (m : List (String × α)) (f : α → β) :
    keysOf (mapValues m f) = keysOf m := by
  simp [keysOf, mapValues, List.map_map]

theorem lookupA_mapValues {α β : Type} (m : List (String × α)) (f : α → β)
    (k : String) : lookupA (mapValues m f) k = (lookupA m k).map f := by
  induction m with
  | nil => rfl
  | cons p rest ih =>
    obtain ⟨k₁, w⟩ := p
    by_cases hk : k₁ = k
    · simp [mapValues, lookupA, hk]
    · simp only [mapValues, List.map_cons, lookupA, if_neg hk]
      exact ih

theorem mapValues_dictInsert {α β : Type} (m : List (String × α)) (f : α → β)
    (k : String) (v : α) :
    mapValues (dictInsert m k v) f = dictInsert (mapValues m f) k (f v) := by
  induction m with
  | nil => rfl
  | cons p rest ih =>
    obtain ⟨k₁, w⟩ := p
    by_cases hk : k₁ = k
    · simp [dictInsert, mapValues, hk]
    · simp only [dictInsert, if_neg hk, mapValues, List.map_cons]
      exact congrArg (fun t => (k₁, f w) :: t) ih

theorem mapValues_foldl_dictInsert {α β : Type} (f : α → β) (l : List (String × α)) :
    ∀ m, mapValues (l.foldl (fun m q => dictInsert m q.1 q.2) m) f =
      l.foldl (fun m q => dictInsert m q.1 (f q.2)) (mapValues m f) := by
  induction l with
  | nil => intro m; rfl
  | cons q rest ih =>
    intro m
    rw [List.foldl_cons, List.foldl_cons, ih, mapValues_dictInsert]

theorem buildMemory_foldl (cur : List (String × List NewC)) :
    ∀ m : List (String × OldData),
      cur.foldl
        (fun m p =>
          p.2.foldl (fun m c => dictInsert m c.id (OldData.mk c.name c.status (some p.1))) m)
        m =
      (flatPairs cur).foldl (fun m q => dictInsert m q.1 (toOld q.2)) m := by
  induction cur with
  | nil => intro m; rfl
  | cons q rest ih =>
    obtain ⟨ep, cs⟩ := q
    intro m
    rw [List.foldl_cons, flatPairs, List.foldl_append, ih, List.foldl_map]
    rfl

theorem buildMemory_eq (cur : List (String × List NewC)) :
    buildMemory cur = mapValues (buildFlat cur) toOld := by
  rw [buildMemory, buildMemory_foldl, buildFlat, mapValues_foldl_dictInsert]
  rfl

/-! ### Generic fold-invariance helpers -/

theorem foldl_id_of {α β : Type} {l : List β} {step : α → β → α}
    (h : ∀ q ∈ l, ∀ acc, step acc q = acc) : ∀ acc, l.foldl step acc = acc := by
  induction l with
  | nil => intro acc; rfl
  | cons q rest ih =>
    intro acc
    rw [List.foldl_cons, h q (List.mem_cons_self _ _)]
    exact ih (fun x hx acc => h x (List.mem_cons_of_mem _ hx) acc) acc

/-! ### Result-shape invariants -/

theorem appendEvent_values_ne_nil {m : List (String × List ChangeEvent)}
    (hm : ∀ q ∈ m, q.2 ≠ []) (ep : String) (e : ChangeEvent) :
    ∀ q ∈ appendEvent m ep e, q.2 ≠ [] := by
  induction m with
  | nil =>
    intro q hq
    rw [appendEvent] at hq
    rcases List.mem_cons.mp hq with h | h
    · rw [h]
      simp
    · simp at h
  | cons p rest ih =>
    obtain ⟨k, l⟩ := p
    intro q hq
    rw [appendEvent] at hq
    by_cases hk : k = ep
    · rw [if_pos hk] at hq
      rcases List.mem_cons.mp hq with h | h
      · rw [h]
        simp
      · exact hm q (List.mem_cons_of_mem _ h)
    · rw [if_neg hk] at hq
      rcases List.mem_cons.mp hq with h | h
      · rw [h]
        exact hm (k, l) (List.mem_cons_self _ _)
      · exact ih (fun x hx => hm x (List.mem_cons_of_mem _ hx)) q h

theorem dictInsert_values {α : Type} {P : α → Prop} {m : List (String × α)}
    (hm : ∀ q ∈ m, P q.2) {v : α} (hv : P v) (k : String) :
    ∀ q ∈ dictInsert m k v, P q.2 := by
  induction m with
  | nil =>
    intro q hq
    rw [dictInsert] at hq
    rcases List.mem_cons.mp hq with h | h
    · rw [h]
      exact hv
    · simp at h
  | cons p rest ih =>
    obtain ⟨k₁, w⟩ := p
    intro q hq
    rw [dictInsert] at hq
    by_cases hk : k₁ = k
    · rw [if_pos hk] at hq
      rcases List.mem_cons.mp hq with h | h
      · rw [h]
        exact hv
      · exact hm q (List.mem_cons_of_mem _ h)
    · rw [if_neg hk] at hq
      rcases List.mem_cons.mp hq with h | h
      · rw [h]
        exact hm (k₁, w) (List.mem_cons_self _ _)
      · exact ih (fun x hx => hm x (List.mem_cons_of_mem _ hx)) q h

theorem foldl_pass1_values_ne_nil (old : List (String × OldData))
    (nti : List (String × List String)) (l : List (String × FlatC)) :
    ∀ m, (∀ q ∈ m, q.2 ≠ []) → ∀ q ∈ l.foldl (pass1Step old nti) m, q.2 ≠ [] := by
  induction l with
  | nil => intro m hm; exact hm
  | cons x rest ih =>
    intro m hm
    rw [List.foldl_cons]
    refine ih _ ?_
    cases he : step1Event old nti x
    · have hx : pass1Step old nti m x = m := by rw [pass1Step, he]
      rw [hx]
      exact hm
    · next e =>
      have hx : pass1Step old nti m x = appendEvent m x.2.endpoint e := by
        rw [pass1Step, he]
      rw [hx]
      exact appendEvent_values_ne_nil hm _ _

theorem foldl_pass2_values_ne_nil (nf : List (String × FlatC)) (skip : List String)
    (l : List (String × OldData)) :
    ∀ m, (∀ q ∈ m, q.2 ≠ []) → ∀ q ∈ l.foldl (step2 nf skip) m, q.2 ≠ [] := by
  induction l with
  | nil => intro m hm; exact hm
  | cons x rest ih =>
    intro m hm
    rw [List.foldl_cons]
    refine ih _ ?_
    cases he : step2Event nf skip x
    · have hx : step2 nf skip m x = m := by rw [step2_split, he]
      rw [hx]
      exact hm
    · next e =>
      have hx : step2 nf skip m x = appendEvent m (ep2Of x) e := by
        rw [step2_split, he]
      rw [hx]
      exact appendEvent_values_ne_nil hm _ _

theorem bootstrapChanges_values (cur : List (String × List NewC))
    {P : List ChangeEvent → Prop}
    (hP : ∀ cs : List NewC, nonRunningOf cs ≠ [] → P (nonRunningOf cs)) :
    ∀ m, (∀ q ∈ m, P q.2) → ∀ q ∈ cur.foldl bootStep m, P q.2 := by
  induction cur with
  | nil => intro m hm; exact hm
  | cons x rest ih =>
    intro m hm
    rw [List.foldl_cons]
    refine ih _ ?_
    by_cases hx : nonRunningOf x.2 = []
    · rw [bootStep, if_pos hx]
      exact hm
    · rw [bootStep, if_neg hx]
      exact dictInsert_values hm (hP x.2 hx) x.1

theorem detectChanges_values_ne_nil (old : List (String × OldData))
    (cur : List (String × List NewC)) :
    ∀ q ∈ detectChanges old cur, q.2 ≠ [] := by
  by_cases h : old = []
  · subst h
    rw [detectChanges_bootstrap, bootstrapChanges]
    exact @bootstrapChanges_values cur (fun l => l ≠ []) (fun _ hne => hne) [] (by simp)
  · rw [detectChanges_steady h]
    exact foldl_pass2_values_ne_nil _ _ _ _
      (foldl_pass1_values_ne_nil _ _ _ [] (by simp))

theorem bootstrapChanges_all_notRunning (cur : List (String × List NewC)) :
    ∀ q ∈ bootstrapChanges cur, ∀ e ∈ q.2, isNotRunning e = true := by
  rw [bootstrapChanges]
  refine @bootstrapChanges_values cur (fun l => ∀ e ∈ l, isNotRunning e = true) ?_ [] (by simp)
  intro cs _
  intro e he
  rcases List.mem_map.mp he with ⟨c, _, hc⟩
  rw [← hc]
  rfl

/-! ### The bootstrap result as a filterMap -/

theorem bootstrap_foldl_filterMap (cur : List (String × List NewC)) :
    ∀ m, (∀ p ∈ cur, p.1 ∉ keysOf m) → (keysOf cur).Nodup →
      cur.foldl bootStep m =
        m ++ cur.filterMap
          (fun p => if nonRunningOf p.2 = [] then none else some (p.1, nonRunningOf p.2)) := by
  induction cur with
  | nil => intro m _ _; simp
  | cons x rest ih =>
    intro m hd hn
    rw [keysOf_cons, List.nodup_cons] at hn
    rw [List.foldl_cons, List.filterMap_cons]
    by_cases hx : nonRunningOf x.2 = []
    · rw [if_pos hx]
      have hstep : bootStep m x = m := by rw [bootStep, if_pos hx]
      rw [hstep]
      exact ih m (fun p hp => hd p (List.mem_cons_of_mem _ hp)) hn.2
    · rw [if_neg hx]
      have hstep : bootStep m x = m ++ [(x.1, nonRunningOf x.2)] := by
        rw [bootStep, if_neg hx,
          dictInsert_of_not_mem (hd x (List.mem_cons_self _ _)) (nonRunningOf x.2)]
      rw [hstep, ih (m ++ [(x.1, nonRunningOf x.2)]) ?_ hn.2, List.append_assoc,
        List.singleton_append]
      intro p hp
      rw [keysOf_append, List.mem_append]
      rintro (h | h)
      · exact hd p (List.mem_cons_of_mem _ hp) h
      · have hp1 : p.1 = x.1 := by simpa [keysOf] using h
        exact hn.1 (hp1 ▸ mem_keysOf_of_mem hp)

theorem bootstrapChanges_filterMap {cur : List (String × List NewC)}
    (hn : (keysOf cur).Nodup) :
    bootstrapChanges cur =
      cur.filterMap
        (fun p => if nonRunningOf p.2 = [] then none else some (p.1, nonRunningOf p.2)) := by
  rw [bootstrapChanges, bootstrap_foldl_filterMap cur [] (by simp) hn, List.nil_append]

/-! ### Observation building from raw API records -/

theorem buildObs_of_names_ne_nil {c : RawC} (h : c.rNames ≠ some []) :
    buildObs c = some (NewC.mk ((c.rId.getD "").take 12)
      (stripSlashes ((c.rNames.getD [""]).headD ""))
      (c.rState.getD "unknown")) := by
  unfold buildObs
  cases hn : c.rNames with
  | none => rfl
  | some l =>
    cases l with
    | nil => exact absurd hn h
    | cons nm tl => rfl

theorem buildObs_fillRaw (c : RawC) : buildObs (fillRaw c) = buildObs c := by
  unfold buildObs fillRaw
  cases hn : c.rNames with
  | none => rfl
  | some l =>
    cases l with
    | nil => rfl
    | cons nm tl => rfl

theorem obsList_some {cs : List RawC} (h : ∀ c ∈ cs, c.rNames ≠ some []) :
    ∃ os, obsList cs = some os := by
  induction cs with
  | nil => exact ⟨[], rfl⟩
  | cons c rest ih =>
    obtain ⟨os, hos⟩ := ih (fun x hx => h x (List.mem_cons_of_mem _ hx))
    rw [obsList, buildObs_of_names_ne_nil (h c (List.mem_cons_self _ _)), hos]
    exact ⟨_, rfl⟩

theorem obsList_fillRaw (cs : List RawC) : obsList (cs.map fillRaw) = obsList cs := by
  induction cs with
  | nil => rfl
  | cons c rest ih =>
    rw [List.map_cons, obsList, buildObs_fillRaw, ih, obsList]

theorem groupedObs_some {raw : List (String × List RawC)}
    (h : ∀ p ∈ raw, ∀ c ∈ p.2, c.rNames ≠ some []) :
    ∃ obs, groupedObs raw = some obs := by
  induction raw with
  | nil => exact ⟨[], rfl⟩
  | cons p rest ih =>
    obtain ⟨ep, cs⟩ := p
    obtain ⟨g, hg⟩ := ih (fun x hx => h x (List.mem_cons_of_mem _ hx))
    obtain ⟨os, hos⟩ := obsList_some (h (ep, cs) (List.mem_cons_self _ _))
    rw [groupedObs, hos, hg]
    exact ⟨_, rfl⟩

theorem groupedObs_fillRaw (raw : List (String × List RawC)) :
    groupedObs (raw.map (fun p => (p.1, p.2.map fillRaw))) = groupedObs raw := by
  induction raw with
  | nil => rfl
  | cons p rest ih =>
    obtain ⟨ep, cs⟩ := p
    rw [List.map_cons, groupedObs, obsList_fillRaw, ih, groupedObs]

/-! ### Small facts about the event predicates -/

@[simp] theorem countOpt_none (p : ChangeEvent → Bool) : countOpt p none = 0 := rfl

theorem countOpt_some (p : ChangeEvent → Bool) (e : ChangeEvent) :
    countOpt p (some e) = if p e then 1 else 0 := rfl

theorem isRestartedId_of_ne {i : String} {e : ChangeEvent} (h : cidOf e ≠ i) :
    isRestartedId i e = false := by
  cases e with
  | restarted n cid s =>
    show (cid == i) = false
    exact beq_eq_false_iff_ne.mpr h
  | notRunning n cid s => rfl
  | new n cid s => rfl
  | statusChanged n cid a b => rfl
  | removed n cid => rfl

theorem isRemovedId_of_ne {i : String} {e : ChangeEvent} (h : cidOf e ≠ i) :
    isRemovedId i e = false := by
  cases e with
  | removed n cid =>
    show (cid == i) = false
    exact beq_eq_false_iff_ne.mpr h
  | notRunning n cid s => rfl
  | new n cid s => rfl
  | restarted n cid s => rfl
  | statusChanged n cid a b => rfl

theorem isStatusChangedId_of_ne {i : String} {e : ChangeEvent} (h : cidOf e ≠ i) :
    isStatusChangedId i e = false := by
  cases e with
  | statusChanged n cid a b =>
    show (cid == i) = false
    exact beq_eq_false_iff_ne.mpr h
  | notRunning n cid s => rfl
  | new n cid s => rfl
  | restarted n cid s => rfl
  | removed n cid => rfl

theorem hasId_of_ne {i : String} {e : ChangeEvent} (h : cidOf e ≠ i) :
    hasId i e = false := by
  show (cidOf e == i) = false
  exact beq_eq_false_iff_ne.mpr h

theorem isRemovedId_of_not_removed {i : String} {e : ChangeEvent}
    (h : isRemoved e = false) : isRemovedId i e = false := by
  cases e with
  | removed n cid => exact absurd h (by simp [isRemoved])
  | notRunning n cid s => rfl
  | new n cid s => rfl
  | restarted n cid s => rfl
  | statusChanged n cid a b => rfl

/-! ### Claim theorems -/

/-- C5: reconciling a non-empty grouped observation set against the
flattening of that same set (as built by `build_memory`) yields an empty
result mapping: no endpoint keys, no events. -/
theorem detect_changes_idempotent (cur : List (String × List NewC))
    (_hne : cur ≠ []) : detectChanges (buildMemory cur) cur = [] := by
  by_cases hf : buildFlat cur = []
  · have hmem : buildMemory cur = [] := by
      rw [buildMemory_eq, hf]
      rfl
    rw [hmem, detectChanges_bootstrap]
    have hall := flatPairs_nil_elim (flatPairs_of_buildFlat_nil hf)
    rw [bootstrapChanges]
    refine foldl_id_of ?_ []
    intro q hq acc
    rw [bootStep, hall q hq]
    simp [nonRunningOf]
  · have hold : buildMemory cur ≠ [] := by
      rw [buildMemory_eq]
      intro hc
      apply hf
      cases hbf : buildFlat cur with
      | nil => rfl
      | cons p r =>
        rw [hbf] at hc
        simp [mapValues] at hc
    rw [detectChanges_steady hold]
    have hnodup := nodup_keys_buildFlat cur
    have hpass1 : (buildFlat cur).foldl
        (pass1Step (buildMemory cur) (buildNameToIds (buildMemory cur))) [] = [] := by
      refine foldl_id_of ?_ []
      intro q hq acc
      have hlk : lookupA (buildFlat cur) q.1 = some q.2 := mem_lookupA hnodup hq
      have hmo : lookupA (buildMemory cur) q.1 = some (toOld q.2) := by
        rw [buildMemory_eq, lookupA_mapValues, hlk]
        rfl
      have hse : step1Event (buildMemory cur) (buildNameToIds (buildMemory cur)) q =
          none := by
        unfold step1Event
        simp only [hmo]
        simp [toOld]
      rw [pass1Step, hse]
    rw [hpass1]
    refine foldl_id_of ?_ []
    intro q hq acc
    have hkey : q.1 ∈ keysOf (buildFlat cur) := by
      rw [buildMemory_eq] at hq
      have h1 := mem_keysOf_of_mem hq
      rwa [keysOf_mapValues] at h1
    rw [step2, if_neg (fun hc => lookupA_isSome_of_mem hkey hc.1)]

theorem detect_changes_idempotent_witness :
    ([("e", [NewC.mk "aaa" "x" "running"])] : List (String × List NewC)) ≠ [] ∧
    detectChanges (buildMemory [("e", [NewC.mk "aaa" "x" "running"])])
      [("e", [NewC.mk "aaa" "x" "running"])] = [] :=
  ⟨by decide, detect_changes_idempotent _ (by decide)⟩

/-- C8: every endpoint key present in the result of `detect_changes` maps
to a non-empty event list, so an endpoint contributing zero events is
absent as a key. -/
theorem detect_changes_result_lists_nonempty (old : List (String × OldData))
    (cur : List (String × List NewC)) (ep : String) (l : List ChangeEvent)
    (h : lookupA (detectChanges old cur) ep = some l) : l ≠ [] :=
  detectChanges_values_ne_nil old cur (ep, l) (lookupA_mem h)

theorem detect_changes_result_lists_nonempty_witness :
    lookupA (detectChanges [] [("e", [NewC.mk "aaa" "x" "exited"])]) "e" =
      some [ChangeEvent.notRunning "x" "aaa" "exited"] ∧
    ([ChangeEvent.notRunning "x" "aaa" "exited"] : List ChangeEvent) ≠ [] :=
  ⟨by decide, detect_changes_result_lists_nonempty [] [("e", [NewC.mk "aaa" "x" "exited"])]
    "e" [ChangeEvent.notRunning "x" "aaa" "exited"] (by decide)⟩

/-- C2 counterexample: with an empty previous snapshot, an observation with
status `"Running"` differs from `"running"` as an exact string, yet the
bootstrap branch lowercases before comparing and so emits no `NotRunning`
entry at all — the claim's exact-string reading demands one. -/
theorem bootstrap_exact_status_counterexample :
    ("Running" : String) ≠ "running" ∧
    detectChanges [] [("e", [NewC.mk "aaa" "x" "Running"])] = [] := by
  constructor
  · decide
  · decide

/-- C2 amended: for a non-empty grouped observation set with dict-unique
endpoint keys and an empty previous snapshot, the result is exactly one
`NotRunning` entry per observation whose LOWERCASED status is not
`"running"`, grouped in input order under that observation's endpoint, and
nothing else; endpoints all of whose containers lowercase to `"running"`
are absent from the result. -/
theorem bootstrap_not_running_lowercased (cur : List (String × List NewC))
    (_hne : cur ≠ []) (hnd : (keysOf cur).Nodup) :
    detectChanges [] cur =
      cur.filterMap
        (fun p => if nonRunningOf p.2 = [] then none else some (p.1, nonRunningOf p.2)) := by
  rw [detectChanges_bootstrap, bootstrapChanges_filterMap hnd]

theorem bootstrap_not_running_lowercased_witness :
    ([("e", [NewC.mk "aaa" "x" "Running", NewC.mk "bbb" "y" "exited"]),
      ("f", [NewC.mk "ccc" "z" "running"])] : List (String × List NewC)) ≠ [] ∧
    (keysOf ([("e", [NewC.mk "aaa" "x" "Running", NewC.mk "bbb" "y" "exited"]),
      ("f", [NewC.mk "ccc" "z" "running"])] : List (String × List NewC))).Nodup ∧
    detectChanges [] [("e", [NewC.mk "aaa" "x" "Running", NewC.mk "bbb" "y" "exited"]),
      ("f", [NewC.mk "ccc" "z" "running"])] =
      [("e", [ChangeEvent.notRunning "y" "bbb" "exited"])] := by
  refine ⟨by decide, by decide, ?_⟩
  rw [bootstrap_not_running_lowercased _ (by decide) (by decide)]
  decide

/-- C9 counterexample: `get_all_containers` stores the record's `State`
field verbatim; for `State = "Exited"` the built observation's status is
`"Exited"`, not its lowercase form `"exited"`, refuting the claimed
lowercase normalization. -/
theorem observation_status_lowercase_counterexample :
    buildObs (RawC.mk (some "0123456789abcdef") (some ["/web"]) (some "Exited")) =
      some (NewC.mk "0123456789ab" "web" "Exited") ∧
    lowerStr "Exited" = "exited" ∧
    ("Exited" : String) ≠ "exited" := by
  refine ⟨by decide, by decide, by decide⟩

/-- C9 amended: the status of the observation built from a raw container
record equals the record's `State` field verbatim (no case normalization),
with the sentinel `"unknown"` when the field is absent; the later exact
string comparisons therefore operate on the API's original casing. -/
theorem observation_status_verbatim (c : RawC) (o : NewC)
    (h : buildObs c = some o) :
    o.status = c.rState.getD "unknown" ∧
    (c.rState = none → o.status = "unknown") := by
  unfold buildObs at h
  split at h
  · exact absurd h (by simp)
  · obtain rfl := Option.some.inj h
    constructor
    · rfl
    · intro hs
      show (c.rState.getD "unknown") = "unknown"
      rw [hs]
      rfl

theorem observation_status_verbatim_witness :
    buildObs (RawC.mk none none none) = some (NewC.mk "" "" "unknown") ∧
    ((NewC.mk "" "" "unknown").status = ((RawC.mk none none none).rState.getD "unknown") ∧
     ((RawC.mk none none none).rState = none →
       (NewC.mk "" "" "unknown").status = "unknown")) :=
  ⟨by decide, observation_status_verbatim (RawC.mk none none none)
    (NewC.mk "" "" "unknown") (by decide)⟩

/-- C6: a raw observation missing its `Names`, `State` or `Id` key does not
abort the cycle: observation building still succeeds (provided no record
carries a present-but-empty `Names` list, which the source would crash on),
a missing `State` becomes the sentinel `"unknown"`, and reconciliation of
the built observations is the same as on the fully defaulted (well-formed)
input, so every well-formed observation still yields its usual events.
`detectChanges` itself is total by construction. -/
theorem malformed_observations_tolerated (prev : List (String × OldData))
    (raw : List (String × List RawC))
    (h : ∀ p ∈ raw, ∀ c ∈ p.2, c.rNames ≠ some []) :
    ∃ obs, groupedObs raw = some obs ∧
      reconcileRaw prev raw = some (detectChanges prev obs) ∧
      reconcileRaw prev (raw.map (fun p => (p.1, p.2.map fillRaw))) =
        some (detectChanges prev obs) ∧
      (∀ p ∈ raw, ∀ c ∈ p.2, c.rState = none →
        ∃ o, buildObs c = some o ∧ o.status = "unknown") := by
  obtain ⟨obs, hobs⟩ := groupedObs_some h
  refine ⟨obs, hobs, ?_, ?_, ?_⟩
  · rw [reconcileRaw, hobs]
    rfl
  · rw [reconcileRaw, groupedObs_fillRaw, hobs]
    rfl
  · intro p hp c hc hs
    refine ⟨_, buildObs_of_names_ne_nil (h p hp c hc), ?_⟩
    show (c.rState.getD "unknown") = "unknown"
    rw [hs]
    rfl

theorem malformed_observations_tolerated_witness :
    (∀ p ∈ ([("e", [RawC.mk none none none,
        RawC.mk (some "0123456789abcdef") (some ["/web"]) (some "running")])] :
        List (String × List RawC)), ∀ c ∈ p.2, c.rNames ≠ some []) ∧
    (∃ obs, groupedObs ([("e", [RawC.mk none none none,
        RawC.mk (some "0123456789abcdef") (some ["/web"]) (some "running")])] :
        List (String × List RawC)) = some obs ∧
      reconcileRaw [] [("e", [RawC.mk none none none,
        RawC.mk (some "0123456789abcdef") (some ["/web"]) (some "running")])] =
        some (detectChanges [] obs) ∧
      reconcileRaw [] (([("e", [RawC.mk none none none,
        RawC.mk (some "0123456789abcdef") (some ["/web"]) (some "running")])] :
        List (String × List RawC)).map (fun p => (p.1, p.2.map fillRaw))) =
        some (detectChanges [] obs) ∧
      (∀ p ∈ ([("e", [RawC.mk none none none,
          RawC.mk (some "0123456789abcdef") (some ["/web"]) (some "running")])] :
          List (String × List RawC)), ∀ c ∈ p.2, c.rState = none →
        ∃ o, buildObs c = some o ∧ o.status = "unknown")) :=
  ⟨by decide, malformed_observations_tolerated []
    [("e", [RawC.mk none none none,
      RawC.mk (some "0123456789abcdef") (some ["/web"]) (some "running")])] (by decide)⟩

/-- C1: in steady state, a flattened current id absent from the previous
snapshot whose name matches a non-empty set of previous ids yields exactly
one Restarted event for that id, placed under its observed endpoint; every
previous id bearing that name enters `removed_ids_to_skip`, and none of
them is reported Removed in the same result. -/
theorem restart_collapse (old : List (String × OldData)) (cur : List (String × List NewC))
    (i : String) (c : FlatC)
    (hne : old ≠ [])
    (hnew : lookupA old i = none)
    (hflat : lookupA (buildFlat cur) i = some c)
    (hmatch : ∃ a da, (a, da) ∈ old ∧ da.name = c.name) :
    countIn (detectChanges old cur) (isRestartedId i) = 1 ∧
    ChangeEvent.restarted c.name i c.status ∈ eventsAt (detectChanges old cur) c.endpoint ∧
    (∀ oid d, (oid, d) ∈ old → d.name = c.name →
      oid ∈ skipSet old cur ∧ countIn (detectChanges old cur) (isRemovedId oid) = 0) := by
  obtain ⟨a, da, ha, haname⟩ := hmatch
  have hids : getOldIds (buildNameToIds old) c.name ≠ [] :=
    getOldIds_ne_nil_of_named ha haname
  have hmemflat : (i, c) ∈ buildFlat cur := lookupA_mem hflat
  have hnodup := nodup_keys_buildFlat cur
  have hse : step1Event old (buildNameToIds old) (i, c) =
      some (ChangeEvent.restarted c.name i c.status) := by
    unfold step1Event
    dsimp only
    simp only [hnew]
    rw [if_pos hids]
  have h2 : (old.map (fun q => countOpt (isRestartedId i)
      (step2Event (buildFlat cur) (skipSet old cur) q))).sum = 0 := by
    refine sum_map_zero ?_
    intro q _
    cases he : step2Event (buildFlat cur) (skipSet old cur) q
    · rfl
    · next e =>
      obtain ⟨rfl, -, -⟩ := step2Event_some he
      rfl
  have h1 : ((buildFlat cur).map (fun q => countOpt (isRestartedId i)
      (step1Event old (buildNameToIds old) q))).sum =
      countOpt (isRestartedId i) (step1Event old (buildNameToIds old) (i, c)) := by
    refine sum_map_single_key hnodup hmemflat ?_
    intro q _ hqk
    cases he : step1Event old (buildNameToIds old) q
    · rfl
    · next e =>
      have hc1 : cidOf e ≠ i := by
        rw [step1Event_cid he]
        exact hqk
      rw [countOpt_some, isRestartedId_of_ne hc1]
      rfl
  have hcount : countIn (detectChanges old cur) (isRestartedId i) = 1 := by
    rw [countIn_detectChanges hne cur, h1, h2, hse, Nat.add_zero, countOpt_some]
    simp [isRestartedId]
  refine ⟨hcount, ?_, ?_⟩
  · rw [eventsAt_detectChanges hne cur]
    refine List.mem_append.mpr (Or.inl ?_)
    refine List.mem_filterMap.mpr ⟨(i, c), hmemflat, ?_⟩
    dsimp only
    rw [if_pos rfl]
    exact hse
  · intro oid d hd hdname
    have hoidmem : oid ∈ getOldIds (buildNameToIds old) c.name :=
      mem_getOldIds_buildNameToIds.mpr ⟨d, hd, hdname⟩
    have hskip : oid ∈ skipSet old cur := mem_skipSet hmemflat hnew hoidmem
    refine ⟨hskip, ?_⟩
    rw [countIn_detectChanges hne cur]
    have hz1 : ((buildFlat cur).map (fun q => countOpt (isRemovedId oid)
        (step1Event old (buildNameToIds old) q))).sum = 0 := by
      refine sum_map_zero ?_
      intro q _
      cases he : step1Event old (buildNameToIds old) q
      · rfl
      · next e =>
        rw [countOpt_some, isRemovedId_of_not_removed (step1Event_not_removed he)]
        rfl
    have hz2 : (old.map (fun q => countOpt (isRemovedId oid)
        (step2Event (buildFlat cur) (skipSet old cur) q))).sum = 0 := by
      refine sum_map_zero ?_
      intro q _
      cases he : step2Event (buildFlat cur) (skipSet old cur) q
      · rfl
      · next e =>
        obtain ⟨rfl, -, hnskip⟩ := step2Event_some he
        have hq1 : cidOf (ChangeEvent.removed q.2.name q.1) ≠ oid := by
          intro heq
          have heq2 : q.1 = oid := heq
          rw [heq2] at hnskip
          exact hnskip hskip
        rw [countOpt_some, isRemovedId_of_ne hq1]
        rfl
    rw [hz1, hz2]

theorem restart_collapse_witness :
    (([("aaa", OldData.mk "x" "running" (some "e"))] : List (String × OldData)) ≠ []) ∧
    lookupA ([("aaa", OldData.mk "x" "running" (some "e"))] : List (String × OldData))
      "bbb" = none ∧
    lookupA (buildFlat [("e", [NewC.mk "bbb" "x" "running"])]) "bbb" =
      some (FlatC.mk "x" "running" "e") ∧
    (countIn (detectChanges [("aaa", OldData.mk "x" "running" (some "e"))]
        [("e", [NewC.mk "bbb" "x" "running"])]) (isRestartedId "bbb") = 1 ∧
     ChangeEvent.restarted "x" "bbb" "running" ∈
       eventsAt (detectChanges [("aaa", OldData.mk "x" "running" (some "e"))]
         [("e", [NewC.mk "bbb" "x" "running"])]) "e" ∧
     (∀ oid d, (oid, d) ∈ ([("aaa", OldData.mk "x" "running" (some "e"))] :
         List (String × OldData)) → d.name = "x" →
       oid ∈ skipSet [("aaa", OldData.mk "x" "running" (some "e"))]
         [("e", [NewC.mk "bbb" "x" "running"])] ∧
       countIn (detectChanges [("aaa", OldData.mk "x" "running" (some "e"))]
         [("e", [NewC.mk "bbb" "x" "running"])]) (isRemovedId oid) = 0)) :=
  ⟨by decide, by decide, by decide,
    restart_collapse [("aaa", OldData.mk "x" "running" (some "e"))]
      [("e", [NewC.mk "bbb" "x" "running"])] "bbb" (FlatC.mk "x" "running" "e")
      (by decide) (by decide) (by decide)
      ⟨"aaa", OldData.mk "x" "running" (some "e"), by decide, rfl⟩⟩

/-- C3: in steady state, an id present in both the previous snapshot and
the flattened current state yields exactly one StatusChanged event carrying
old and new status under the observed endpoint when the statuses differ as
exact strings, and no event of any kind for that id when they are equal. -/
theorem status_change_exact (old : List (String × OldData))
    (cur : List (String × List NewC)) (i : String) (d : OldData) (c : FlatC)
    (hne : old ≠ [])
    (hold : lookupA old i = some d)
    (hflat : lookupA (buildFlat cur) i = some c) :
    (d.status ≠ c.status →
      countIn (detectChanges old cur) (hasId i) = 1 ∧
      ChangeEvent.statusChanged c.name i d.status c.status ∈
        eventsAt (detectChanges old cur) c.endpoint) ∧
    (d.status = c.status → countIn (detectChanges old cur) (hasId i) = 0) := by
  have hmemflat : (i, c) ∈ buildFlat cur := lookupA_mem hflat
  have hnodup := nodup_keys_buildFlat cur
  have hse : step1Event old (buildNameToIds old) (i, c) =
      if d.status = c.status then none
      else some (ChangeEvent.statusChanged c.name i d.status c.status) := by
    unfold step1Event
    dsimp only
    simp only [hold]
  have hz2 : (old.map (fun q => countOpt (hasId i)
      (step2Event (buildFlat cur) (skipSet old cur) q))).sum = 0 := by
    refine sum_map_zero ?_
    intro q _
    cases he : step2Event (buildFlat cur) (skipSet old cur) q
    · rfl
    · next e =>
      obtain ⟨rfl, hnone, -⟩ := step2Event_some he
      have hq1 : cidOf (ChangeEvent.removed q.2.name q.1) ≠ i := by
        intro heq
        have heq2 : q.1 = i := heq
        rw [heq2, hflat] at hnone
        exact Option.noConfusion hnone
      rw [countOpt_some, hasId_of_ne hq1]
      rfl
  have h1 : ((buildFlat cur).map (fun q => countOpt (hasId i)
      (step1Event old (buildNameToIds old) q))).sum =
      countOpt (hasId i) (step1Event old (buildNameToIds old) (i, c)) := by
    refine sum_map_single_key hnodup hmemflat ?_
    intro q _ hqk
    cases he : step1Event old (buildNameToIds old) q
    · rfl
    · next e =>
      have hc1 : cidOf e ≠ i := by
        rw [step1Event_cid he]
        exact hqk
      rw [countOpt_some, hasId_of_ne hc1]
      rfl
  constructor
  · intro hdc
    constructor
    · rw [countIn_detectChanges hne cur, h1, hz2, hse, if_neg hdc, Nat.add_zero,
        countOpt_some]
      simp [hasId, cidOf]
    · rw [eventsAt_detectChanges hne cur]
      refine List.mem_append.mpr (Or.inl (List.mem_filterMap.mpr ⟨(i, c), hmemflat, ?_⟩))
      dsimp only
      rw [if_pos rfl, hse, if_neg hdc]
  · intro hdc
    rw [countIn_detectChanges hne cur, h1, hz2, hse, if_pos hdc, Nat.add_zero]
    rfl

theorem status_change_exact_witness :
    (([("ddd", OldData.mk "w" "running" (some "e"))] : List (String × OldData)) ≠ []) ∧
    lookupA ([("ddd", OldData.mk "w" "running" (some "e"))] : List (String × OldData))
      "ddd" = some (OldData.mk "w" "running" (some "e")) ∧
    lookupA (buildFlat [("e", [NewC.mk "ddd" "w" "exited"])]) "ddd" =
      some (FlatC.mk "w" "exited" "e") ∧
    ((((OldData.mk "w" "running" (some "e")).status ≠ (FlatC.mk "w" "exited" "e").status) →
      countIn (detectChanges [("ddd", OldData.mk "w" "running" (some "e"))]
        [("e", [NewC.mk "ddd" "w" "exited"])]) (hasId "ddd") = 1 ∧
      ChangeEvent.statusChanged "w" "ddd" "running" "exited" ∈
        eventsAt (detectChanges [("ddd", OldData.mk "w" "running" (some "e"))]
          [("e", [NewC.mk "ddd" "w" "exited"])]) "e") ∧
     (((OldData.mk "w" "running" (some "e")).status = (FlatC.mk "w" "exited" "e").status) →
      countIn (detectChanges [("ddd", OldData.mk "w" "running" (some "e"))]
        [("e", [NewC.mk "ddd" "w" "exited"])]) (hasId "ddd") = 0)) :=
  ⟨by decide, by decide, by decide,
    status_change_exact [("ddd", OldData.mk "w" "running" (some "e"))]
      [("e", [NewC.mk "ddd" "w" "exited"])] "ddd"
      (OldData.mk "w" "running" (some "e")) (FlatC.mk "w" "exited" "e")
      (by decide) (by decide) (by decide)⟩

/-- C4: in steady state, an id of the previous snapshot (dict keys unique)
that is absent from the flattened current state and not in
`removed_ids_to_skip` yields exactly one Removed event, placed under the
endpoint stored in its snapshot record with fallback `"unknown"` when that
record has no endpoint. -/
theorem removal_reported (old : List (String × OldData))
    (cur : List (String × List NewC)) (i : String) (d : OldData)
    (hne : old ≠ [])
    (hnodupold : (keysOf old).Nodup)
    (hold : lookupA old i = some d)
    (hflat : lookupA (buildFlat cur) i = none)
    (hskip : i ∉ skipSet old cur) :
    countIn (detectChanges old cur) (isRemovedId i) = 1 ∧
    ChangeEvent.removed d.name i ∈
      eventsAt (detectChanges old cur) (d.endpoint.getD "unknown") := by
  have hmem : (i, d) ∈ old := lookupA_mem hold
  have hs2 : step2Event (buildFlat cur) (skipSet old cur) (i, d) =
      some (ChangeEvent.removed d.name i) := by
    unfold step2Event
    dsimp only
    rw [if_pos ⟨hflat, hskip⟩]
  have hz1 : ((buildFlat cur).map (fun q => countOpt (isRemovedId i)
      (step1Event old (buildNameToIds old) q))).sum = 0 := by
    refine sum_map_zero ?_
    intro q _
    cases he : step1Event old (buildNameToIds old) q
    · rfl
    · next e =>
      rw [countOpt_some, isRemovedId_of_not_removed (step1Event_not_removed he)]
      rfl
  have h2 : (old.map (fun q => countOpt (isRemovedId i)
      (step2Event (buildFlat cur) (skipSet old cur) q))).sum =
      countOpt (isRemovedId i) (step2Event (buildFlat cur) (skipSet old cur) (i, d)) := by
    refine sum_map_single_key hnodupold hmem ?_
    intro q _ hqk
    cases he : step2Event (buildFlat cur) (skipSet old cur) q
    · rfl
    · next e =>
      obtain ⟨rfl, -, -⟩ := step2Event_some he
      have hq1 : cidOf (ChangeEvent.removed q.2.name q.1) ≠ i := hqk
      rw [countOpt_some, isRemovedId_of_ne hq1]
      rfl
  constructor
  · rw [countIn_detectChanges hne cur, hz1, h2, hs2, Nat.zero_add, countOpt_some]
    simp [isRemovedId]
  · rw [eventsAt_detectChanges hne cur]
    refine List.mem_append.mpr (Or.inr (List.mem_filterMap.mpr ⟨(i, d), hmem, ?_⟩))
    dsimp only [ep2Of]
    rw [if_pos rfl, hs2]

theorem removal_reported_witness :
    (([("ccc", OldData.mk "y" "running" none)] : List (String × OldData)) ≠ []) ∧
    (keysOf ([("ccc", OldData.mk "y" "running" none)] : List (String × OldData))).Nodup ∧
    lookupA ([("ccc", OldData.mk "y" "running" none)] : List (String × OldData)) "ccc" =
      some (OldData.mk "y" "running" none) ∧
    lookupA (buildFlat ([("e", ([] : List NewC))])) "ccc" = none ∧
    "ccc" ∉ skipSet [("ccc", OldData.mk "y" "running" none)] [("e", ([] : List NewC))] ∧
    (countIn (detectChanges [("ccc", OldData.mk "y" "running" none)]
        [("e", ([] : List NewC))]) (isRemovedId "ccc") = 1 ∧
     ChangeEvent.removed "y" "ccc" ∈
       eventsAt (detectChanges [("ccc", OldData.mk "y" "running" none)]
         [("e", ([] : List NewC))]) "unknown") :=
  ⟨by decide, by decide, by decide, by decide, by decide,
    removal_reported [("ccc", OldData.mk "y" "running" none)] [("e", ([] : List NewC))]
      "ccc" (OldData.mk "y" "running" none)
      (by decide) (by decide) (by decide) (by decide) (by decide)⟩

/-- C10: a Restarted event does not imply a removal.  If a new id's name
matches previous ids, Restarted is emitted even when a same-named previous
id is still present in the flattened current state: that old id gets no
Removed event (it is still present) and is independently processed by the
status-comparison rule. -/
theorem restart_without_removal (old : List (String × OldData))
    (cur : List (String × List NewC)) (i a : String) (c ca : FlatC) (da : OldData)
    (hne : old ≠ [])
    (hinew : lookupA old i = none)
    (hiflat : lookupA (buildFlat cur) i = some c)
    (haold : lookupA old a = some da)
    (hname : da.name = c.name)
    (haflat : lookupA (buildFlat cur) a = some ca) :
    countIn (detectChanges old cur) (isRestartedId i) = 1 ∧
    ChangeEvent.restarted c.name i c.status ∈ eventsAt (detectChanges old cur) c.endpoint ∧
    countIn (detectChanges old cur) (isRemovedId a) = 0 ∧
    ((da.status ≠ ca.status →
       countIn (detectChanges old cur) (hasId a) = 1 ∧
       ChangeEvent.statusChanged ca.name a da.status ca.status ∈
         eventsAt (detectChanges old cur) ca.endpoint) ∧
     (da.status = ca.status → countIn (detectChanges old cur) (hasId a) = 0)) := by
  have hids : getOldIds (buildNameToIds old) c.name ≠ [] :=
    getOldIds_ne_nil_of_named (lookupA_mem haold) hname
  have hmemflat : (i, c) ∈ buildFlat cur := lookupA_mem hiflat
  have hmemaflat : (a, ca) ∈ buildFlat cur := lookupA_mem haflat
  have hnodup := nodup_keys_buildFlat cur
  have hse : step1Event old (buildNameToIds old) (i, c) =
      some (ChangeEvent.restarted c.name i c.status) := by
    unfold step1Event
    dsimp only
    simp only [hinew]
    rw [if_pos hids]
  refine ⟨?_, ?_, ?_, ?_, ?_⟩
  · have h2 : (old.map (fun q => countOpt (isRestartedId i)
        (step2Event (buildFlat cur) (skipSet old cur) q))).sum = 0 := by
      refine sum_map_zero ?_
      intro q _
      cases he : step2Event (buildFlat cur) (skipSet old cur) q
      · rfl
      · next e =>
        obtain ⟨rfl, -, -⟩ := step2Event_some he
        rfl
    have h1 : ((buildFlat cur).map (fun q => countOpt (isRestartedId i)
        (step1Event old (buildNameToIds old) q))).sum =
        countOpt (isRestartedId i) (step1Event old (buildNameToIds old) (i, c)) := by
      refine sum_map_single_key hnodup hmemflat ?_
      intro q _ hqk
      cases he : step1Event old (buildNameToIds old) q
      · rfl
      · next e =>
        have hc1 : cidOf e ≠ i := by
          rw [step1Event_cid he]
          exact hqk
        rw [countOpt_some, isRestartedId_of_ne hc1]
        rfl
    rw [countIn_detectChanges hne cur, h1, h2, hse, Nat.add_zero, countOpt_some]
    simp [isRestartedId]
  · rw [eventsAt_detectChanges hne cur]
    refine List.mem_append.mpr (Or.inl (List.mem_filterMap.mpr ⟨(i, c), hmemflat, ?_⟩))
    dsimp only
    rw [if_pos rfl]
    exact hse
  · have hz1 : ((buildFlat cur).map (fun q => countOpt (isRemovedId a)
        (step1Event old (buildNameToIds old) q))).sum = 0 := by
      refine sum_map_zero ?_
      intro q _
      cases he : step1Event old (buildNameToIds old) q
      · rfl
      · next e =>
        rw [countOpt_some, isRemovedId_of_not_removed (step1Event_not_removed he)]
        rfl
    have hz2 : (old.map (fun q => countOpt (isRemovedId a)
        (step2Event (buildFlat cur) (skipSet old cur) q))).sum = 0 := by
      refine sum_map_zero ?_
      intro q _
      cases he : step2Event (buildFlat cur) (skipSet old cur) q
      · rfl
      · next e =>
        obtain ⟨rfl, hnone, -⟩ := step2Event_some he
        have hq1 : cidOf (ChangeEvent.removed q.2.name q.1) ≠ a := by
          intro heq
          have heq2 : q.1 = a := heq
          rw [heq2, haflat] at hnone
          exact Option.noConfusion hnone
        rw [countOpt_some, isRemovedId_of_ne hq1]
        rfl
    rw [countIn_detectChanges hne cur, hz1, hz2]
  all_goals {
    have hsea : step1Event old (buildNameToIds old) (a, ca) =
        if da.status = ca.status then none
        else some (ChangeEvent.statusChanged ca.name a da.status ca.status) := by
      unfold step1Event
      dsimp only
      simp only [haold]
    have hz2a : (old.map (fun q => countOpt (hasId a)
        (step2Event (buildFlat cur) (skipSet old cur) q))).sum = 0 := by
      refine sum_map_zero ?_
      intro q _
      cases he : step2Event (buildFlat cur) (skipSet old cur) q
      · rfl
      · next e =>
        obtain ⟨rfl, hnone, -⟩ := step2Event_some he
        have hq1 : cidOf (ChangeEvent.removed q.2.name q.1) ≠ a := by
          intro heq
          have heq2 : q.1 = a := heq
          rw [heq2, haflat] at hnone
          exact Option.noConfusion hnone
        rw [countOpt_some, hasId_of_ne hq1]
        rfl
    have h1a : ((buildFlat cur).map (fun q => countOpt (hasId a)
        (step1Event old (buildNameToIds old) q))).sum =
        countOpt (hasId a) (step1Event old (buildNameToIds old) (a, ca)) := by
      refine sum_map_single_key hnodup hmemaflat ?_
      intro q _ hqk
      cases he : step1Event old (buildNameToIds old) q
      · rfl
      · next e =>
        have hc1 : cidOf e ≠ a := by
          rw [step1Event_cid he]
          exact hqk
        rw [countOpt_some, hasId_of_ne hc1]
        rfl
    first
    | (intro hdc
       constructor
       · rw [countIn_detectChanges hne cur, h1a, hz2a, hsea, if_neg hdc, Nat.add_zero,
           countOpt_some]
         simp [hasId, cidOf]
       · rw [eventsAt_detectChanges hne cur]
         refine List.mem_append.mpr
           (Or.inl (List.mem_filterMap.mpr ⟨(a, ca), hmemaflat, ?_⟩))
         dsimp only
         rw [if_pos rfl, hsea, if_neg hdc])
    | (intro hdc
       rw [countIn_detectChanges hne cur, h1a, hz2a, hsea, if_pos hdc, Nat.add_zero]
       rfl)
  }

theorem restart_without_removal_witness :
    (([("aaa", OldData.mk "x" "running" (some "e"))] : List (String × OldData)) ≠ []) ∧
    lookupA ([("aaa", OldData.mk "x" "running" (some "e"))] : List (String × OldData))
      "bbb" = none ∧
    lookupA (buildFlat [("e", [NewC.mk "aaa" "x" "exited", NewC.mk "bbb" "x" "running"])])
      "bbb" = some (FlatC.mk "x" "running" "e") ∧
    lookupA ([("aaa", OldData.mk "x" "running" (some "e"))] : List (String × OldData))
      "aaa" = some (OldData.mk "x" "running" (some "e")) ∧
    (OldData.mk "x" "running" (some "e")).name = (FlatC.mk "x" "running" "e").name ∧
    lookupA (buildFlat [("e", [NewC.mk "aaa" "x" "exited", NewC.mk "bbb" "x" "running"])])
      "aaa" = some (FlatC.mk "x" "exited" "e") ∧
    (countIn (detectChanges [("aaa", OldData.mk "x" "running" (some "e"))]
        [("e", [NewC.mk "aaa" "x" "exited", NewC.mk "bbb" "x" "running"])])
        (isRestartedId "bbb") = 1 ∧
     ChangeEvent.restarted "x" "bbb" "running" ∈
       eventsAt (detectChanges [("aaa", OldData.mk "x" "running" (some "e"))]
         [("e", [NewC.mk "aaa" "x" "exited", NewC.mk "bbb" "x" "running"])]) "e" ∧
     countIn (detectChanges [("aaa", OldData.mk "x" "running" (some "e"))]
       [("e", [NewC.mk "aaa" "x" "exited", NewC.mk "bbb" "x" "running"])])
       (isRemovedId "aaa") = 0 ∧
     ((((OldData.mk "x" "running" (some "e")).status ≠ (FlatC.mk "x" "exited" "e").status) →
        countIn (detectChanges [("aaa", OldData.mk "x" "running" (some "e"))]
          [("e", [NewC.mk "aaa" "x" "exited", NewC.mk "bbb" "x" "running"])])
          (hasId "aaa") = 1 ∧
        ChangeEvent.statusChanged "x" "aaa" "running" "exited" ∈
          eventsAt (detectChanges [("aaa", OldData.mk "x" "running" (some "e"))]
            [("e", [NewC.mk "aaa" "x" "exited", NewC.mk "bbb" "x" "running"])]) "e") ∧
      (((OldData.mk "x" "running" (some "e")).status = (FlatC.mk "x" "exited" "e").status) →
        countIn (detectChanges [("aaa", OldData.mk "x" "running" (some "e"))]
          [("e", [NewC.mk "aaa" "x" "exited", NewC.mk "bbb" "x" "running"])])
          (hasId "aaa") = 0))) :=
  ⟨by decide, by decide, by decide, by decide, by decide, by decide,
    restart_without_removal [("aaa", OldData.mk "x" "running" (some "e"))]
      [("e", [NewC.mk "aaa" "x" "exited", NewC.mk "bbb" "x" "running"])]
      "bbb" "aaa" (FlatC.mk "x" "running" "e") (FlatC.mk "x" "exited" "e")
      (OldData.mk "x" "running" (some "e"))
      (by decide) (by decide) (by decide) (by decide) (by decide) (by decide)⟩

/-- C7: per endpoint, the event list is the first-pass events (New,
Restarted, StatusChanged, in the grouped-then-sequence order of the
current observations) followed by the second-pass Removed events (in the
iteration order of the previous snapshot), with no additional sorting; in
bootstrap mode only NotRunning events occur, so the claim is vacuous
there.  Stated under dict-unique flattened ids, where `new_flat` preserves
the source order exactly. -/
theorem events_ordering (old : List (String × OldData)) (cur : List (String × List NewC))
    (hk : (keysOf (flatPairs cur)).Nodup) (ep : String) :
    (old = [] → ∀ e ∈ eventsAt (detectChanges old cur) ep, isNotRunning e = true) ∧
    (old ≠ [] →
      eventsAt (detectChanges old cur) ep =
        (flatPairs cur).filterMap
          (fun q => if q.2.endpoint = ep then step1Event old (buildNameToIds old) q
            else none)
        ++ old.filterMap
          (fun q => if ep2Of q = ep then
            step2Event (flatPairs cur) (skipSet old cur) q else none) ∧
      (∀ e ∈ (flatPairs cur).filterMap
          (fun q => if q.2.endpoint = ep then step1Event old (buildNameToIds old) q
            else none),
        isRemoved e = false) ∧
      (∀ e ∈ old.filterMap
          (fun q => if ep2Of q = ep then
            step2Event (flatPairs cur) (skipSet old cur) q else none),
        isRemoved e = true)) := by
  have hbf : buildFlat cur = flatPairs cur := buildFlat_eq_flatPairs hk
  constructor
  · intro h
    subst h
    rw [detectChanges_bootstrap]
    intro e he
    cases hl : lookupA (bootstrapChanges cur) ep with
    | none =>
      rw [eventsAt, hl] at he
      simp at he
    | some l =>
      rw [eventsAt, hl] at he
      exact bootstrapChanges_all_notRunning cur (ep, l) (lookupA_mem hl) e he
  · intro h
    refine ⟨?_, ?_, ?_⟩
    · rw [eventsAt_detectChanges h cur, hbf]
    · intro e he
      obtain ⟨q, _, hqe⟩ := List.mem_filterMap.mp he
      by_cases hcond : q.2.endpoint = ep
      · rw [if_pos hcond] at hqe
        exact step1Event_not_removed hqe
      · rw [if_neg hcond] at hqe
        exact Option.noConfusion hqe
    · intro e he
      obtain ⟨q, _, hqe⟩ := List.mem_filterMap.mp he
      by_cases hcond : ep2Of q = ep
      · rw [if_pos hcond] at hqe
        exact step2Event_is_removed hqe
      · rw [if_neg hcond] at hqe
        exact Option.noConfusion hqe

theorem events_ordering_witness :
    (keysOf (flatPairs [("e", [NewC.mk "aaa" "x" "exited"])])).Nodup ∧
    ((([("aaa", OldData.mk "x" "running" (some "e")),
        ("zzz", OldData.mk "q" "running" (some "e"))] : List (String × OldData)) = [] →
      ∀ e ∈ eventsAt (detectChanges
        [("aaa", OldData.mk "x" "running" (some "e")),
         ("zzz", OldData.mk "q" "running" (some "e"))]
        [("e", [NewC.mk "aaa" "x" "exited"])]) "e", isNotRunning e = true) ∧
     (([("aaa", OldData.mk "x" "running" (some "e")),
        ("zzz", OldData.mk "q" "running" (some "e"))] : List (String × OldData)) ≠ [] →
      eventsAt (detectChanges
        [("aaa", OldData.mk "x" "running" (some "e")),
         ("zzz", OldData.mk "q" "running" (some "e"))]
        [("e", [NewC.mk "aaa" "x" "exited"])]) "e" =
        (flatPairs [("e", [NewC.mk "aaa" "x" "exited"])]).filterMap
          (fun q => if q.2.endpoint = "e" then
            step1Event [("aaa", OldData.mk "x" "running" (some "e")),
              ("zzz", OldData.mk "q" "running" (some "e"))]
              (buildNameToIds [("aaa", OldData.mk "x" "running" (some "e")),
                ("zzz", OldData.mk "q" "running" (some "e"))]) q
            else none)
        ++ ([("aaa", OldData.mk "x" "running" (some "e")),
            ("zzz", OldData.mk "q" "running" (some "e"))] :
            List (String × OldData)).filterMap
          (fun q => if ep2Of q = "e" then
            step2Event (flatPairs [("e", [NewC.mk "aaa" "x" "exited"])])
              (skipSet [("aaa", OldData.mk "x" "running" (some "e")),
                ("zzz", OldData.mk "q" "running" (some "e"))]
                [("e", [NewC.mk "aaa" "x" "exited"])]) q
            else none) ∧
      (∀ e ∈ (flatPairs [("e", [NewC.mk "aaa" "x" "exited"])]).filterMap
          (fun q => if q.2.endpoint = "e" then
            step1Event [("aaa", OldData.mk "x" "running" (some "e")),
              ("zzz", OldData.mk "q" "running" (some "e"))]
              (buildNameToIds [("aaa", OldData.mk "x" "running" (some "e")),
                ("zzz", OldData.mk "q" "running" (some "e"))]) q
            else none),
        isRemoved e = false) ∧
      (∀ e ∈ ([("aaa", OldData.mk "x" "running" (some "e")),
            ("zzz", OldData.mk "q" "running" (some "e"))] :
            List (String × OldData)).filterMap
          (fun q => if ep2Of q = "e" then
            step2Event (flatPairs [("e", [NewC.mk "aaa" "x" "exited"])])
              (skipSet [("aaa", OldData.mk "x" "running" (some "e")),
                ("zzz", OldData.mk "q" "running" (some "e"))]
                [("e", [NewC.mk "aaa" "x" "exited"])]) q
            else none),
        isRemoved e = true))) :=
  ⟨by decide,
    events_ordering
      [("aaa", OldData.mk "x" "running" (some "e")),
       ("zzz", OldData.mk "q" "running" (some "e"))]
      [("e", [NewC.mk "aaa" "x" "exited"])] (by decide) "e"⟩
